import Mathlib

/-!
Verification of the collaborative-filtering movie recommender.

The rating table (pandas DataFrame, users as rows and movies as columns,
float ratings, 0 = unrated) is embedded as a function `Fin m → Fin n → ℚ`:
float values are idealized as rationals, and the row/column label order of
the DataFrame is the `Fin` order (the pivot construction sorts ids, so
positional order is ascending id order).  Cosine similarities and predicted
ratings are real numbers (`ℝ`), since they involve square roots.
-/

namespace MovieRec

/-- A user–item rating table: `m` users (rows), `n` items (columns),
rational rating values, `0` meaning "unrated". -/
abbrev Table (m n : ℕ) := Fin m → Fin n → ℚ

/-- Dot product of two rating vectors, evaluated in `ℝ`. -/
def dotR {k : ℕ} (v w : Fin k → ℚ) : ℝ := ∑ i, (v i : ℝ) * (w i : ℝ)

/-- Cosine similarity of two rating vectors, as computed by
`sklearn.metrics.pairwise.cosine_similarity`: the vectors are normalized by
their Euclidean norms and dotted; a zero vector stays zero after
normalization, so any similarity involving a zero vector is `0`.  In Lean,
division by the zero denominator yields `0`, matching that convention. -/
noncomputable def cosineSim {k : ℕ} (v w : Fin k → ℚ) : ℝ :=
  dotR v w / (Real.sqrt (dotR v v) * Real.sqrt (dotR w w))

/-- `compute_user_similarity`: cosine similarity between user rows
(`cosine_similarity(self.user_item_matrix)`). -/
noncomputable def userSimilarity {m n : ℕ} (R : Table m n) (u u' : Fin m) : ℝ :=
  cosineSim (R u) (R u')

/-- `compute_item_similarity`: cosine similarity between item columns
(`cosine_similarity(self.user_item_matrix.T)`). -/
noncomputable def itemSimilarity {m n : ℕ} (R : Table m n) (j j' : Fin n) : ℝ :=
  cosineSim (fun u => R u j) (fun u => R u j')

/-- The `1e-8` guard added to every similarity-sum denominator. -/
noncomputable def eps : ℝ := 1 / 100000000

/-!
## Recommender (collaborative.py)

`recommend_user_based(user_id, top_n)`:
`similar_users = self.user_similarity[user_id]` takes the `user_id` column of
the (symmetric) user-similarity matrix, drops the `user_id` entry, reindexes
over all users and fills the hole with 0; so the aligned vector is
`u' ↦ if u' = u then 0 else sim[u', u]`.  The weighted ratings are
`R.T.dot(aligned)` and the prediction divides by `aligned.sum() + 1e-8`.

`pandas.Series.sort_values(ascending=False)` performs an ascending argsort of
the values and reverses the resulting order (`pandas.core.sorting.nargsort`
applies `indexer[::-1]` for descending sorts).  On the small arrays relevant
here the underlying numpy argsort is an insertion sort and hence stable, so
the descending sort is embedded as a stable ascending insertion sort by
value followed by `List.reverse`.
-/

/-- Stable insertion of an `(item, predicted rating)` pair into a list that is
sorted by ascending rating. -/
noncomputable def insertAsc {n : ℕ} (x : Fin n × ℝ) : List (Fin n × ℝ) → List (Fin n × ℝ)
  | [] => [x]
  | y :: ys => if x.2 ≤ y.2 then x :: y :: ys else y :: insertAsc x ys

/-- Stable ascending insertion sort by predicted rating. -/
noncomputable def sortAsc {n : ℕ} : List (Fin n × ℝ) → List (Fin n × ℝ)
  | [] => []
  | x :: xs => insertAsc x (sortAsc xs)

/-- The similarity column of the target user, with the self entry dropped and
refilled as 0 (`similar_users.drop(user_id).reindex(index).fillna(0)`). -/
noncomputable def alignedUserSim {m n : ℕ} (R : Table m n) (u : Fin m) : Fin m → ℝ :=
  fun u' => if u' = u then 0 else userSimilarity R u' u

/-- The predicted rating of item `j` for user `u` on the user-based path:
`self.user_item_matrix.T.dot(similar_users_aligned) / (similarity_sums + 1e-8)`. -/
noncomputable def predUserBased {m n : ℕ} (R : Table m n) (u : Fin m) (j : Fin n) : ℝ :=
  (∑ u', (R u' j : ℝ) * alignedUserSim R u u') / ((∑ u', alignedUserSim R u u') + eps)

/-- The predicted rating of item `j` for user `u` on the item-based path:
`self.item_similarity.dot(user_ratings_aligned) / (np.abs(self.item_similarity).sum(axis=1) + 1e-8)`. -/
noncomputable def predItemBased {m n : ℕ} (R : Table m n) (u : Fin m) (j : Fin n) : ℝ :=
  (∑ i, itemSimilarity R j i * (R u i : ℝ)) / ((∑ i, |itemSimilarity R j i|) + eps)

/-- The candidate items of `predicted_ratings[user_ratings == 0]`: the items
the target user has not rated, in column order. -/
def candidateItems {m n : ℕ} (R : Table m n) (u : Fin m) : List (Fin n) :=
  (List.finRange n).filter (fun j => R u j = 0)

/-- `recommend_user_based`: predictions on unrated items, sorted by value
descending, truncated to `top_n`. -/
noncomputable def recommendUserBased {m n : ℕ} (R : Table m n) (u : Fin m) (topN : ℕ) :
    List (Fin n × ℝ) :=
  ((sortAsc ((candidateItems R u).map (fun j => (j, predUserBased R u j)))).reverse).take topN

/-- `recommend_item_based`: predictions on unrated items, sorted by value
descending, truncated to `top_n`. -/
noncomputable def recommendItemBased {m n : ℕ} (R : Table m n) (u : Fin m) (topN : ℕ) :
    List (Fin n × ℝ) :=
  ((sortAsc ((candidateItems R u).map (fun j => (j, predItemBased R u j)))).reverse).take topN

/-!
## Concrete tables used to instantiate hypotheses
-/

/-- A 2×2 table: user 0 rated item 0 with 1, everything else unrated. -/
def tbl3 : Table 2 2 := fun u j => if u = 0 ∧ j = 0 then 1 else 0

/-!
## Order of the recommendation lists (C3, C4)
-/

/-- Ascending lexicographic order on `(item, rating)` pairs: by rating first,
ties by ascending item position. -/
def LexAsc {n : ℕ} (a b : Fin n × ℝ) : Prop := a.2 < b.2 ∨ (a.2 = b.2 ∧ a.1 < b.1)

/-- The order the spec asserts for a recommendation list: rating strictly
descending, ties by ascending item id. -/
def specSortedList {n : ℕ} (l : List (Fin n × ℝ)) : Prop :=
  l.Pairwise (fun a b => b.2 < a.2 ∨ (a.2 = b.2 ∧ a.1 < b.1))

/-- The order the code actually produces: rating descending, ties by
descending item id (the descending sort reverses a stable ascending sort). -/
def codeSortedList {n : ℕ} (l : List (Fin n × ℝ)) : Prop :=
  l.Pairwise (fun a b => b.2 < a.2 ∨ (a.2 = b.2 ∧ b.1 < a.1))

/-- A 2×2 table: user 0 rated nothing, user 1 rated both items with 5. -/
def tbl2 : Table 2 2 := fun u _ => if u = 1 then 5 else 0

/-!
## Batched prediction (evaluation.py, `predict_all`)

`method='user'`: the diagonal of the user-similarity matrix is zeroed in
place, `sim_sums = similarity_matrix.sum(axis=1) + 1e-8`, the weighted
ratings are `train.T.dot(S.T) / sim_sums` transposed back, and cells with a
nonzero train rating are masked to 0 (`where(train == 0, 0.0)`).

`method='item'`: `item_similarity.dot(train.T)` divided row-wise by
`np.abs(item_similarity).sum(axis=1) + 1e-8`, transposed, same masking.
-/

/-- Cell `(u, j)` of `predict_all(method='user')`. -/
noncomputable def predictAllUser {m n : ℕ} (R : Table m n) (u : Fin m) (j : Fin n) : ℝ :=
  if R u j = 0 then
    (∑ u', (if u' = u then 0 else userSimilarity R u u') * (R u' j : ℝ)) /
      ((∑ u', (if u' = u then 0 else userSimilarity R u u')) + eps)
  else 0

/-- Cell `(u, j)` of `predict_all(method='item')`. -/
noncomputable def predictAllItem {m n : ℕ} (R : Table m n) (u : Fin m) (j : Fin n) : ℝ :=
  if R u j = 0 then
    (∑ i, itemSimilarity R j i * (R u i : ℝ)) / ((∑ i, |itemSimilarity R j i|) + eps)
  else 0

/-!
## User lookup by id (C8)

The DataFrame rows are labeled by real user ids; `self.user_item_matrix.loc[user_id]`
raises `KeyError` exactly when the id is absent from the row index (app.py
catches this `KeyError` and shows an empty list).  The id-labeled table is a
list of row ids plus the positional table.
-/

/-- `recommend_user_based` behind the row-label lookup: `none` models the
`KeyError` (UserNotFound) raised by `.loc[user_id]` for an absent id. -/
noncomputable def recommendUserBasedIds {n : ℕ} (ids : List ℤ) (R : Table ids.length n)
    (uid : ℤ) (topN : ℕ) : Option (List (Fin n × ℝ)) :=
  if h : uid ∈ ids then
    some (recommendUserBased R ⟨List.indexOf uid ids, List.indexOf_lt_length.2 h⟩ topN)
  else none

/-- `recommend_item_based` behind the same row-label lookup. -/
noncomputable def recommendItemBasedIds {n : ℕ} (ids : List ℤ) (R : Table ids.length n)
    (uid : ℤ) (topN : ℕ) : Option (List (Fin n × ℝ)) :=
  if h : uid ∈ ids then
    some (recommendItemBased R ⟨List.indexOf uid ids, List.indexOf_lt_length.2 h⟩ topN)
  else none

/-!
## Train/test split (evaluation.py, `train_test_split`)

The numpy global generator is abstracted as a state type `σ`:
`np.random.seed(self.random_state)` replaces the ambient state by
`init seed`, and `np.random.choice(pop, size=k, replace=False)` is a state
transformer that either returns `k` distinct elements of `pop` (as a set,
together with the advanced state) or raises `ValueError` — modeled as
`none` — exactly when `k` exceeds the population size, in particular on an
empty population with `k ≥ 1`.
-/

/-- The items a user has rated (`self.user_item_matrix.loc[user] > 0`), in
column order. -/
def ratedItems {m n : ℕ} (R : Table m n) (u : Fin m) : List (Fin n) :=
  (List.finRange n).filter (fun j => 0 < R u j)

/-- `n_test = max(1, int(len(rated_items) * self.test_ratio))`; Python `int()`
truncates toward zero, which on the non-negative products arising here is the
floor. -/
def nTest (len : ℕ) (frac : ℚ) : ℕ := max 1 (Int.toNat ((len : ℚ) * frac).floor)

/-- Contract of `np.random.choice(pop, size=k, replace=False)` on a
duplicate-free population: it raises (`none`) exactly when `k` exceeds the
population length, and otherwise draws `k` distinct elements of `pop`. -/
def ChoiceValid {n : ℕ} {σ : Type}
    (choice : σ → List (Fin n) → ℕ → Option (Finset (Fin n) × σ)) : Prop :=
  ∀ g pop k, (choice g pop k = none ↔ pop.length < k) ∧
    (pop.Nodup → ∀ s g', choice g pop k = some (s, g') →
      (∀ j ∈ s, j ∈ pop) ∧ s.card = k)

/-- One iteration of the split loop: draw the user's test items, zero them in
the train table (`self.train_matrix.loc[user, test_items] = 0.0`) and copy
the original values into the test table. -/
def splitStep {m n : ℕ} {σ : Type}
    (choice : σ → List (Fin n) → ℕ → Option (Finset (Fin n) × σ))
    (R : Table m n) (frac : ℚ) (u : Fin m) (st : Table m n × Table m n × σ) :
    Option (Table m n × Table m n × σ) :=
  match choice st.2.2 (ratedItems R u) (nTest (ratedItems R u).length frac) with
  | none => none
  | some (s, g') =>
      some (fun u' j => if u' = u ∧ j ∈ s then 0 else st.1 u' j,
            fun u' j => if u' = u ∧ j ∈ s then R u' j else st.2.1 u' j,
            g')

/-- The split loop over the users in row order; a raise anywhere aborts the
whole call. -/
def splitUsers {m n : ℕ} {σ : Type}
    (choice : σ → List (Fin n) → ℕ → Option (Finset (Fin n) × σ))
    (R : Table m n) (frac : ℚ) :
    List (Fin m) → Table m n × Table m n × σ → Option (Table m n × Table m n × σ)
  | [], st => some st
  | u :: us, st =>
    match splitStep choice R frac u st with
    | none => none
    | some st' => splitUsers choice R frac us st'

/-- `train_test_split`: seed the generator (discarding the ambient state
`g0`), then process every user, starting from `train = R` and `test = 0`. -/
def trainTestSplit {m n : ℕ} {σ : Type}
    (choice : σ → List (Fin n) → ℕ → Option (Finset (Fin n) × σ))
    (init : ℕ → σ) (R : Table m n) (frac : ℚ) (seed : ℕ) (g0 : σ) :
    Option (Table m n × Table m n) :=
  (splitUsers choice R frac (List.finRange m) (R, fun _ _ => 0, init seed)).map
    (fun st => (st.1, st.2.1))

/-- A concrete generator model satisfying the `np.random.choice` contract:
state `Unit`, drawing the first `k` population elements. -/
def concreteChoice {n : ℕ} : Unit → List (Fin n) → ℕ → Option (Finset (Fin n) × Unit) :=
  fun _ pop k => if k ≤ pop.length then some ((pop.take k).toFinset, ()) else none

/-- A 1×1 table whose single user rated the single item with 1. -/
def tblOne : Table 1 1 := fun _ _ => 1

/-- The train table the split of `tblOne` produces under the concrete
generator model: the user's single rated item is drawn, so it is zeroed. -/
def trainW : Table 1 1 := fun _ _ => 0

/-- The test table the split of `tblOne` produces: the rated cell moved. -/
def testW : Table 1 1 := fun _ _ => 1

/-!
## RMSE (evaluation.py, `compute_rmse`)

`mask = self.test_matrix > 0`; indexing a DataFrame with a boolean DataFrame
(`self.test_matrix[mask]`, `predictions[mask]`) keeps the shape and replaces
every cell where the mask is `False` by NaN.  `sklearn.metrics.mean_squared_error`
validates its inputs with `check_array` (`force_all_finite=True`) and raises
`ValueError` on any NaN, so the call raises whenever any cell of the test
matrix is not positive; only when every cell is positive does it return the
mean of the squared cellwise differences, of which the square root is taken.
-/

/-- `compute_rmse(predictions)`: `none` models the `ValueError` sklearn
raises on the NaN cells produced by the boolean-mask indexing. -/
noncomputable def computeRmse {m n : ℕ} (test : Table m n) (pred : Fin m → Fin n → ℝ) :
    Option ℝ :=
  if ∀ u j, 0 < test u j then
    some (Real.sqrt ((∑ u, ∑ j, ((test u j : ℝ) - pred u j) ^ 2) / (m * n)))
  else none

/-!
## Theorems
-/

lemma eps_pos : (0 : ℝ) < eps := by norm_num [eps]

lemma dotR_self_nonneg {k : ℕ} (v : Fin k → ℚ) : 0 ≤ dotR v v :=
  Finset.sum_nonneg fun i _ => mul_self_nonneg _

lemma dotR_self_pos {k : ℕ} (v : Fin k → ℚ) (h : ∃ i, v i ≠ 0) : 0 < dotR v v := by
  obtain ⟨i, hi⟩ := h
  refine Finset.sum_pos' (fun a _ => mul_self_nonneg _) ⟨i, Finset.mem_univ i, ?_⟩
  have : ((v i : ℝ)) ≠ 0 := by exact_mod_cast hi
  exact mul_self_pos.mpr this

lemma dotR_comm {k : ℕ} (v w : Fin k → ℚ) : dotR v w = dotR w v := by
  unfold dotR
  exact Finset.sum_congr rfl fun i _ => mul_comm _ _

lemma cosineSim_comm {k : ℕ} (v w : Fin k → ℚ) : cosineSim v w = cosineSim w v := by
  unfold cosineSim
  rw [dotR_comm v w, mul_comm]

lemma cosineSim_self_one {k : ℕ} (v : Fin k → ℚ) (h : ∃ i, v i ≠ 0) :
    cosineSim v v = 1 := by
  unfold cosineSim
  rw [Real.mul_self_sqrt (dotR_self_nonneg v)]
  exact div_self (ne_of_gt (dotR_self_pos v h))

lemma dotR_zero_left {k : ℕ} (v w : Fin k → ℚ) (h : ∀ i, v i = 0) : dotR v w = 0 := by
  unfold dotR
  refine Finset.sum_eq_zero fun i _ => ?_
  rw [h i]
  simp

lemma cosineSim_zero_left {k : ℕ} (v w : Fin k → ℚ) (h : ∀ i, v i = 0) :
    cosineSim v w = 0 := by
  unfold cosineSim
  rw [dotR_zero_left v w h, zero_div]

lemma cosineSim_nonneg {k : ℕ} (v w : Fin k → ℚ)
    (hv : ∀ i, 0 ≤ v i) (hw : ∀ i, 0 ≤ w i) : 0 ≤ cosineSim v w := by
  unfold cosineSim
  refine div_nonneg (Finset.sum_nonneg fun i _ => ?_)
    (mul_nonneg (Real.sqrt_nonneg _) (Real.sqrt_nonneg _))
  have hv' : (0 : ℝ) ≤ (v i : ℝ) := by exact_mod_cast hv i
  have hw' : (0 : ℝ) ≤ (w i : ℝ) := by exact_mod_cast hw i
  exact mul_nonneg hv' hw'

lemma cosineSim_le_one {k : ℕ} (v w : Fin k → ℚ) : cosineSim v w ≤ 1 := by
  unfold cosineSim
  rcases eq_or_lt_of_le (mul_nonneg (Real.sqrt_nonneg (dotR v v))
      (Real.sqrt_nonneg (dotR w w))) with h0 | hpos
  · rw [← h0, div_zero]
    exact zero_le_one
  · rw [div_le_one hpos]
    have h1 : dotR v w ≤ Real.sqrt (∑ i, (v i : ℝ) ^ 2) * Real.sqrt (∑ i, (w i : ℝ) ^ 2) :=
      Real.sum_mul_le_sqrt_mul_sqrt Finset.univ (fun i => (v i : ℝ)) (fun i => (w i : ℝ))
    have h2 : (∑ i, (v i : ℝ) ^ 2) = dotR v v := by
      unfold dotR
      exact Finset.sum_congr rfl fun i _ => pow_two ((v i : ℝ))
    have h3 : (∑ i, (w i : ℝ) ^ 2) = dotR w w := by
      unfold dotR
      exact Finset.sum_congr rfl fun i _ => pow_two ((w i : ℝ))
    rw [h2, h3] at h1
    exact h1

/-- Claim C5.  In the matrix returned by `compute_user_similarity`, the diagonal
entry of a user with a nonzero rating row is 1 and the diagonal entry of a
user with an all-zero row is 0 (no exception: the zero-norm convention of
`cosine_similarity` yields 0); the analogous statement holds for
`compute_item_similarity` over item columns. -/
theorem similarity_diagonal_spec {m n : ℕ} (R : Table m n) :
    (∀ u : Fin m, (∃ j, R u j ≠ 0) → userSimilarity R u u = 1) ∧
    (∀ u : Fin m, (∀ j, R u j = 0) → userSimilarity R u u = 0) ∧
    (∀ j : Fin n, (∃ u, R u j ≠ 0) → itemSimilarity R j j = 1) ∧
    (∀ j : Fin n, (∀ u, R u j = 0) → itemSimilarity R j j = 0) := by
  refine ⟨fun u h => cosineSim_self_one _ h, fun u h => cosineSim_zero_left _ _ h,
    fun j h => cosineSim_self_one _ h, fun j h => cosineSim_zero_left _ _ h⟩

/-- Witness for C5 at a concrete table: user 0 / item 0 have nonzero vectors,
user 1 / item 1 have all-zero vectors. -/
theorem similarity_diagonal_spec_witness :
    (tbl3 0 0 ≠ 0 ∧ userSimilarity tbl3 0 0 = 1) ∧
    ((∀ j, tbl3 1 j = 0) ∧ userSimilarity tbl3 1 1 = 0) ∧
    (itemSimilarity tbl3 0 0 = 1) ∧ (itemSimilarity tbl3 1 1 = 0) :=
  ⟨⟨by decide, (similarity_diagonal_spec tbl3).1 0 ⟨0, by decide⟩⟩,
   ⟨by decide, (similarity_diagonal_spec tbl3).2.1 1 (by decide)⟩,
   (similarity_diagonal_spec tbl3).2.2.1 0 ⟨0, by decide⟩,
   (similarity_diagonal_spec tbl3).2.2.2 1 (by decide)⟩

lemma userSimilarity_nonneg {m n : ℕ} (R : Table m n) (hR : ∀ u j, 0 ≤ R u j)
    (u u' : Fin m) : 0 ≤ userSimilarity R u u' :=
  cosineSim_nonneg _ _ (fun j => hR u j) (fun j => hR u' j)

lemma itemSimilarity_nonneg {m n : ℕ} (R : Table m n) (hR : ∀ u j, 0 ≤ R u j)
    (j j' : Fin n) : 0 ≤ itemSimilarity R j j' :=
  cosineSim_nonneg _ _ (fun u => hR u j) (fun u => hR u j')

lemma alignedUserSim_nonneg {m n : ℕ} (R : Table m n) (hR : ∀ u j, 0 ≤ R u j)
    (u u' : Fin m) : 0 ≤ alignedUserSim R u u' := by
  unfold alignedUserSim
  split
  · exact le_refl 0
  · exact userSimilarity_nonneg R hR u' u

/-- Claim C10.  For a table with non-negative cells, every user-similarity and
item-similarity entry lies in `[0, 1]`, and the predicted ratings built from
these weights and the non-negative ratings are non-negative. -/
theorem similarity_entries_bounded {m n : ℕ} (R : Table m n) (hR : ∀ u j, 0 ≤ R u j) :
    (∀ u u', 0 ≤ userSimilarity R u u' ∧ userSimilarity R u u' ≤ 1) ∧
    (∀ j j', 0 ≤ itemSimilarity R j j' ∧ itemSimilarity R j j' ≤ 1) ∧
    (∀ u j, 0 ≤ predUserBased R u j) ∧
    (∀ u j, 0 ≤ predItemBased R u j) := by
  refine ⟨fun u u' => ⟨userSimilarity_nonneg R hR u u', cosineSim_le_one _ _⟩,
    fun j j' => ⟨itemSimilarity_nonneg R hR j j', cosineSim_le_one _ _⟩,
    fun u j => ?_, fun u j => ?_⟩
  · unfold predUserBased
    refine div_nonneg (Finset.sum_nonneg fun u' _ => ?_) (le_of_lt ?_)
    · refine mul_nonneg ?_ (alignedUserSim_nonneg R hR u u')
      exact_mod_cast hR u' j
    · have h1 : 0 ≤ ∑ u', alignedUserSim R u u' :=
        Finset.sum_nonneg fun u' _ => alignedUserSim_nonneg R hR u u'
      linarith [eps_pos]
  · unfold predItemBased
    refine div_nonneg (Finset.sum_nonneg fun i _ => ?_) (le_of_lt ?_)
    · refine mul_nonneg (itemSimilarity_nonneg R hR j i) ?_
      exact_mod_cast hR u i
    · have h1 : (0 : ℝ) ≤ ∑ i, |itemSimilarity R j i| :=
        Finset.sum_nonneg fun i _ => abs_nonneg _
      linarith [eps_pos]

/-- Witness for C10 at a concrete non-negative table. -/
theorem similarity_entries_bounded_witness :
    (∀ u j, 0 ≤ tbl3 u j) ∧
    (0 ≤ userSimilarity tbl3 0 1 ∧ userSimilarity tbl3 0 1 ≤ 1) ∧
    (0 ≤ itemSimilarity tbl3 0 1 ∧ itemSimilarity tbl3 0 1 ≤ 1) ∧
    0 ≤ predUserBased tbl3 0 0 ∧ 0 ≤ predItemBased tbl3 0 0 := by
  have h : ∀ u j, 0 ≤ tbl3 u j := by decide
  exact ⟨h, (similarity_entries_bounded tbl3 h).1 0 1,
    (similarity_entries_bounded tbl3 h).2.1 0 1,
    (similarity_entries_bounded tbl3 h).2.2.1 0 0,
    (similarity_entries_bounded tbl3 h).2.2.2 0 0⟩

lemma LexAsc.rating_le {n : ℕ} {a b : Fin n × ℝ} (h : LexAsc a b) : a.2 ≤ b.2 := by
  rcases h with h | ⟨h, _⟩
  · exact le_of_lt h
  · exact le_of_eq h

lemma mem_insertAsc {n : ℕ} (x z : Fin n × ℝ) (l : List (Fin n × ℝ)) :
    z ∈ insertAsc x l ↔ z = x ∨ z ∈ l := by
  induction l with
  | nil => simp [insertAsc]
  | cons y ys ih =>
    unfold insertAsc
    split
    · simp
    · simp only [List.mem_cons, ih]
      tauto

lemma mem_sortAsc {n : ℕ} (z : Fin n × ℝ) (l : List (Fin n × ℝ)) :
    z ∈ sortAsc l ↔ z ∈ l := by
  induction l with
  | nil => simp [sortAsc]
  | cons x xs ih => simp only [sortAsc, mem_insertAsc, List.mem_cons, ih]

lemma pairwise_insertAsc {n : ℕ} (x : Fin n × ℝ) (l : List (Fin n × ℝ))
    (hl : l.Pairwise LexAsc) (hx : ∀ z ∈ l, x.1 < z.1) :
    (insertAsc x l).Pairwise LexAsc := by
  induction l with
  | nil => simp [insertAsc, List.Pairwise]
  | cons y ys ih =>
    rcases List.pairwise_cons.mp hl with ⟨hy, hys⟩
    unfold insertAsc
    split
    · rename_i hle
      refine List.pairwise_cons.mpr ⟨?_, hl⟩
      intro z hz
      have hyz : x.2 ≤ z.2 := by
        rcases List.mem_cons.mp hz with rfl | hz'
        · exact hle
        · exact le_trans hle (hy z hz').rating_le
      rcases lt_or_eq_of_le hyz with hlt | heq
      · exact Or.inl hlt
      · exact Or.inr ⟨heq, hx z hz⟩
    · rename_i hgt
      push_neg at hgt
      refine List.pairwise_cons.mpr ⟨?_, ih hys fun z hz => hx z (List.mem_cons_of_mem y hz)⟩
      intro z hz
      rcases (mem_insertAsc x z ys).mp hz with rfl | hz'
      · exact Or.inl hgt
      · exact hy z hz'

lemma pairwise_sortAsc {n : ℕ} (l : List (Fin n × ℝ))
    (hl : l.Pairwise (fun a b => a.1 < b.1)) : (sortAsc l).Pairwise LexAsc := by
  induction l with
  | nil => simp [sortAsc]
  | cons x xs ih =>
    rcases List.pairwise_cons.mp hl with ⟨hx, hxs⟩
    exact pairwise_insertAsc x (sortAsc xs) (ih hxs)
      fun z hz => hx z ((mem_sortAsc z xs).mp hz)

lemma candidate_pairs_pairwise {m n : ℕ} (R : Table m n) (u : Fin m) (f : Fin n → ℝ) :
    (((candidateItems R u).map (fun j => (j, f j))).Pairwise
      (fun a b : Fin n × ℝ => a.1 < b.1)) := by
  rw [List.pairwise_map]
  exact (List.pairwise_lt_finRange n).filter _

lemma codeSorted_of_pairs {m n : ℕ} (R : Table m n) (u : Fin m) (f : Fin n → ℝ) (topN : ℕ) :
    codeSortedList ((((sortAsc ((candidateItems R u).map (fun j => (j, f j))))).reverse).take topN) := by
  unfold codeSortedList
  refine List.Pairwise.sublist (List.take_sublist _ _) ?_
  rw [List.pairwise_reverse]
  refine List.Pairwise.imp ?_
    (pairwise_sortAsc _ (candidate_pairs_pairwise R u f))
  intro a b hab
  rcases hab with h | ⟨h, h'⟩
  · exact Or.inl h
  · exact Or.inr ⟨h.symm, h'⟩

/-- Claim C3, amended.  Both recommendation lists are sorted by predicted rating
descending, but entries with equal predicted rating appear in *descending*
item order: the pandas descending sort reverses a stable ascending sort, so
ties come out reversed relative to the ascending column order. -/
theorem recommendations_sorted_descending {m n : ℕ} (R : Table m n) (u : Fin m) (topN : ℕ) :
    codeSortedList (recommendUserBased R u topN) ∧
    codeSortedList (recommendItemBased R u topN) :=
  ⟨codeSorted_of_pairs R u _ topN, codeSorted_of_pairs R u _ topN⟩

lemma alignedUserSim_tbl2 (u' : Fin 2) : alignedUserSim tbl2 0 u' = 0 := by
  unfold alignedUserSim
  split
  · rfl
  · rw [userSimilarity, cosineSim_comm]
    exact cosineSim_zero_left _ _ (by decide)

lemma predUserBased_tbl2 (j : Fin 2) : predUserBased tbl2 0 j = 0 := by
  unfold predUserBased
  rw [Finset.sum_eq_zero fun u' _ => by rw [alignedUserSim_tbl2 u', mul_zero], zero_div]

lemma predItemBased_tbl2 (j : Fin 2) : predItemBased tbl2 0 j = 0 := by
  unfold predItemBased
  rw [Finset.sum_eq_zero fun i _ => ?_, zero_div]
  have h0 : tbl2 0 i = 0 := rfl
  rw [h0]
  simp

lemma candidateItems_tbl2 : candidateItems tbl2 0 = [0, 1] := by decide

lemma recommendUserBased_tbl2 : recommendUserBased tbl2 0 2 = [(1, 0), (0, 0)] := by
  unfold recommendUserBased
  rw [candidateItems_tbl2]
  simp only [List.map, predUserBased_tbl2, sortAsc, insertAsc, le_refl, if_true,
    List.reverse, List.take]

lemma recommendItemBased_tbl2 : recommendItemBased tbl2 0 2 = [(1, 0), (0, 0)] := by
  unfold recommendItemBased
  rw [candidateItems_tbl2]
  simp only [List.map, predItemBased_tbl2, sortAsc, insertAsc, le_refl, if_true,
    List.reverse, List.take]

/-- Counterexample to C3 as stated: for the table where user 0 has rated
nothing and user 1 rated both items, the two candidate items tie at predicted
rating 0 and are returned as `[(1, 0), (0, 0)]` — descending item order, not
the ascending tie order the spec asserts. -/
theorem recommendations_tie_order_counterexample :
    ¬ specSortedList (recommendUserBased tbl2 0 2) := by
  rw [recommendUserBased_tbl2]
  unfold specSortedList
  intro h
  rcases List.pairwise_cons.mp h with ⟨h1, -⟩
  rcases h1 (0, 0) (List.mem_cons_self _ _) with h2 | ⟨-, h2⟩
  · exact lt_irrefl _ h2
  · exact absurd h2 (by decide)

/-- Claim C4.  No returned pair recommends an item the user has already rated:
every returned item has rating 0 for the target user in the table (both
strategies filter on `user_ratings == 0` before sorting). -/
theorem recommendations_no_leakage {m n : ℕ} (R : Table m n) (u : Fin m) (topN : ℕ) :
    (∀ p ∈ recommendUserBased R u topN, R u p.1 = 0) ∧
    (∀ p ∈ recommendItemBased R u topN, R u p.1 = 0) := by
  constructor <;>
  · intro p hp
    have hp1 := (List.take_sublist _ _).subset hp
    rw [List.mem_reverse, mem_sortAsc] at hp1
    rcases List.mem_map.mp hp1 with ⟨j, hj, rfl⟩
    have := (List.mem_filter.mp hj).2
    exact of_decide_eq_true this

/-- Witness for C4: at the concrete table `tbl2`, the returned pair `(1, 0)`
indeed points at an item with rating 0 for the user. -/
theorem recommendations_no_leakage_witness :
    (((1 : Fin 2), (0 : ℝ)) ∈ recommendUserBased tbl2 0 2 ∧ tbl2 0 1 = 0) ∧
    (((1 : Fin 2), (0 : ℝ)) ∈ recommendItemBased tbl2 0 2 ∧ tbl2 0 1 = 0) := by
  have h1 : ((1 : Fin 2), (0 : ℝ)) ∈ recommendUserBased tbl2 0 2 := by
    rw [recommendUserBased_tbl2]
    exact List.mem_cons_self _ _
  have h2 : ((1 : Fin 2), (0 : ℝ)) ∈ recommendItemBased tbl2 0 2 := by
    rw [recommendItemBased_tbl2]
    exact List.mem_cons_self _ _
  exact ⟨⟨h1, (recommendations_no_leakage tbl2 0 2).1 _ h1⟩,
    ⟨h2, (recommendations_no_leakage tbl2 0 2).2 _ h2⟩⟩

lemma userSimilarity_comm {m n : ℕ} (R : Table m n) (u u' : Fin m) :
    userSimilarity R u u' = userSimilarity R u' u := cosineSim_comm _ _

/-- Claim C1.  The batched prediction is semantically equivalent to the single-user
path: on every cell the user has not rated in train, `predict_all` agrees
with the prediction the single-user recommender computes (for both methods),
and every already-rated cell is 0 in the batched output.  The last two
conjuncts tie the single-user prediction functions to the pairs actually
returned by the recommenders. -/
theorem predict_all_refines_single_user {m n : ℕ} (R : Table m n) (u : Fin m) (j : Fin n) :
    (R u j = 0 → predictAllUser R u j = predUserBased R u j) ∧
    (R u j ≠ 0 → predictAllUser R u j = 0) ∧
    (R u j = 0 → predictAllItem R u j = predItemBased R u j) ∧
    (R u j ≠ 0 → predictAllItem R u j = 0) ∧
    (∀ topN, ∀ p ∈ recommendUserBased R u topN, p.2 = predUserBased R u p.1) ∧
    (∀ topN, ∀ p ∈ recommendItemBased R u topN, p.2 = predItemBased R u p.1) := by
  have hzd : ∀ u', (if u' = u then (0 : ℝ) else userSimilarity R u u') = alignedUserSim R u u' := by
    intro u'
    unfold alignedUserSim
    split
    · rfl
    · exact userSimilarity_comm R u u'
  refine ⟨fun h => ?_, fun h => ?_, fun h => ?_, fun h => ?_, ?_, ?_⟩
  · unfold predictAllUser predUserBased
    rw [if_pos h]
    congr 1
    · exact Finset.sum_congr rfl fun u' _ => by rw [hzd u', mul_comm]
    · rw [Finset.sum_congr rfl fun u' _ => hzd u']
  · unfold predictAllUser
    rw [if_neg h]
  · unfold predictAllItem predItemBased
    rw [if_pos h]
  · unfold predictAllItem
    rw [if_neg h]
  · intro topN p hp
    have hp1 := (List.take_sublist _ _).subset hp
    rw [List.mem_reverse, mem_sortAsc] at hp1
    rcases List.mem_map.mp hp1 with ⟨i, _, rfl⟩
    rfl
  · intro topN p hp
    have hp1 := (List.take_sublist _ _).subset hp
    rw [List.mem_reverse, mem_sortAsc] at hp1
    rcases List.mem_map.mp hp1 with ⟨i, _, rfl⟩
    rfl

/-- Witness for C1 at the concrete table `tbl2` (user 0, items 0/1). -/
theorem predict_all_refines_single_user_witness :
    (tbl2 0 1 = 0 ∧ predictAllUser tbl2 0 1 = predUserBased tbl2 0 1 ∧
      predictAllItem tbl2 0 1 = predItemBased tbl2 0 1) ∧
    (tbl2 1 1 ≠ 0 ∧ predictAllUser tbl2 1 1 = 0 ∧ predictAllItem tbl2 1 1 = 0) ∧
    (((1 : Fin 2), (0 : ℝ)) ∈ recommendUserBased tbl2 0 2 ∧ (0 : ℝ) = predUserBased tbl2 0 1) ∧
    (((1 : Fin 2), (0 : ℝ)) ∈ recommendItemBased tbl2 0 2 ∧ (0 : ℝ) = predItemBased tbl2 0 1) := by
  have h0 : tbl2 0 1 = 0 := by decide
  have h1 : tbl2 1 1 ≠ 0 := by decide
  have hm1 : ((1 : Fin 2), (0 : ℝ)) ∈ recommendUserBased tbl2 0 2 := by
    rw [recommendUserBased_tbl2]
    exact List.mem_cons_self _ _
  have hm2 : ((1 : Fin 2), (0 : ℝ)) ∈ recommendItemBased tbl2 0 2 := by
    rw [recommendItemBased_tbl2]
    exact List.mem_cons_self _ _
  exact ⟨⟨h0, (predict_all_refines_single_user tbl2 0 1).1 h0,
      (predict_all_refines_single_user tbl2 0 1).2.2.1 h0⟩,
    ⟨h1, (predict_all_refines_single_user tbl2 1 1).2.1 h1,
      (predict_all_refines_single_user tbl2 1 1).2.2.2.1 h1⟩,
    ⟨hm1, (predict_all_refines_single_user tbl2 0 1).2.2.2.2.1 2 _ hm1⟩,
    ⟨hm2, (predict_all_refines_single_user tbl2 0 1).2.2.2.2.2 2 _ hm2⟩⟩

/-- Claim C8.  Both strategies fail with the user-not-found condition exactly when
the requested id is absent from the row index, and return a recommendation
list (no failure) whenever it is present. -/
theorem user_not_found_iff_absent {n : ℕ} (ids : List ℤ) (R : Table ids.length n)
    (uid : ℤ) (topN : ℕ) :
    (recommendUserBasedIds ids R uid topN = none ↔ uid ∉ ids) ∧
    (recommendItemBasedIds ids R uid topN = none ↔ uid ∉ ids) := by
  unfold recommendUserBasedIds recommendItemBasedIds
  constructor <;>
  · split
    · rename_i h
      simp [h]
    · rename_i h
      simp [h]

lemma splitStep_some {m n : ℕ} {σ : Type}
    {choice : σ → List (Fin n) → ℕ → Option (Finset (Fin n) × σ)}
    {R : Table m n} {frac : ℚ} {v : Fin m} {st st' : Table m n × Table m n × σ}
    (h : splitStep choice R frac v st = some st') :
    ∃ s : Finset (Fin n),
      (∀ u' j, st'.1 u' j = if u' = v ∧ j ∈ s then 0 else st.1 u' j) ∧
      (∀ u' j, st'.2.1 u' j = if u' = v ∧ j ∈ s then R u' j else st.2.1 u' j) := by
  unfold splitStep at h
  cases hc : choice st.2.2 (ratedItems R v) (nTest (ratedItems R v).length frac) with
  | none => rw [hc] at h; cases h
  | some p =>
    obtain ⟨s, g'⟩ := p
    rw [hc] at h
    cases h
    exact ⟨s, fun u' j => rfl, fun u' j => rfl⟩

lemma splitUsers_rows {m n : ℕ} {σ : Type}
    {choice : σ → List (Fin n) → ℕ → Option (Finset (Fin n) × σ)}
    {R : Table m n} {frac : ℚ} :
    ∀ (l : List (Fin m)) (st res : Table m n × Table m n × σ),
    splitUsers choice R frac l st = some res → ∀ u : Fin m,
    (u ∉ l → ∀ j, res.1 u j = st.1 u j ∧ res.2.1 u j = st.2.1 u j) ∧
    (u ∈ l → ∃ s : Finset (Fin n), ∀ j,
      res.1 u j = (if j ∈ s then 0 else st.1 u j) ∧
      res.2.1 u j = (if j ∈ s then R u j else st.2.1 u j)) := by
  intro l
  induction l with
  | nil =>
    intro st res h u
    cases h
    exact ⟨fun _ j => ⟨rfl, rfl⟩, fun hmem => absurd hmem (List.not_mem_nil u)⟩
  | cons v vs ih =>
    intro st res h u
    rw [splitUsers] at h
    cases hstep : splitStep choice R frac v st with
    | none => rw [hstep] at h; cases h
    | some st' =>
      rw [hstep] at h
      obtain ⟨s, htr, hte⟩ := splitStep_some hstep
      have hi := ih st' res h u
      constructor
      · intro hnot j
        have hnv : u ≠ v := fun he => hnot (he ▸ List.mem_cons_self v vs)
        have hnvs : u ∉ vs := fun he => hnot (List.mem_cons_of_mem v he)
        rcases hi.1 hnvs j with ⟨h1, h2⟩
        rw [h1, h2, htr u j, hte u j, if_neg (fun hc => hnv hc.1),
          if_neg (fun hc => hnv hc.1)]
        exact ⟨rfl, rfl⟩
      · intro hmem
        by_cases hvs : u ∈ vs
        · obtain ⟨s₂, hrow⟩ := hi.2 hvs
          by_cases huv : u = v
          · subst huv
            refine ⟨s ∪ s₂, fun j => ?_⟩
            rcases hrow j with ⟨h1, h2⟩
            rw [h1, h2, htr u j, hte u j]
            by_cases hj2 : j ∈ s₂ <;> by_cases hj1 : j ∈ s <;>
              simp [hj1, hj2, Finset.mem_union]
          · refine ⟨s₂, fun j => ?_⟩
            rcases hrow j with ⟨h1, h2⟩
            have hs1 : st'.1 u j = st.1 u j := by
              rw [htr u j, if_neg (fun hc => huv hc.1)]
            have hs2 : st'.2.1 u j = st.2.1 u j := by
              rw [hte u j, if_neg (fun hc => huv hc.1)]
            rw [h1, h2, hs1, hs2]
            exact ⟨rfl, rfl⟩
        · have huv : u = v := by
            rcases List.mem_cons.mp hmem with he | he
            · exact he
            · exact absurd he hvs
          subst huv
          refine ⟨s, fun j => ?_⟩
          rcases hi.1 hvs j with ⟨h1, h2⟩
          rw [h1, h2, htr u j, hte u j]
          simp

/-- Claim C2.  Whenever `train_test_split` completes, the train and test tables
partition each user's nonzero cells of the source table disjointly and
completely, each surviving cell keeping its original value. -/
theorem split_partitions_nonzero_cells {m n : ℕ} {σ : Type}
    (choice : σ → List (Fin n) → ℕ → Option (Finset (Fin n) × σ))
    (init : ℕ → σ) (R : Table m n) (frac : ℚ) (seed : ℕ) (g0 : σ)
    (hfrac0 : 0 < frac) (hfrac1 : frac < 1) (train test : Table m n)
    (h : trainTestSplit choice init R frac seed g0 = some (train, test))
    (u : Fin m) (j : Fin n) :
    ¬(train u j ≠ 0 ∧ test u j ≠ 0) ∧
    (R u j ≠ 0 ↔ train u j ≠ 0 ∨ test u j ≠ 0) ∧
    (train u j ≠ 0 → train u j = R u j) ∧
    (test u j ≠ 0 → test u j = R u j) := by
  unfold trainTestSplit at h
  cases hs : splitUsers choice R frac (List.finRange m) (R, fun _ _ => 0, init seed) with
  | none => rw [hs] at h; cases h
  | some st =>
    rw [hs] at h
    have h' := Option.some.inj h
    have htr' : st.1 = train := congrArg Prod.fst h'
    have hte' : st.2.1 = test := congrArg Prod.snd h'
    obtain ⟨s, hrow⟩ := (splitUsers_rows (List.finRange m) _ st hs u).2 (List.mem_finRange u)
    rcases hrow j with ⟨h1, h2⟩
    rw [htr'] at h1
    rw [hte'] at h2
    by_cases hj : j ∈ s
    · rw [if_pos hj] at h1 h2
      refine ⟨fun hc => hc.1 h1, ?_, fun a => absurd h1 a, fun _ => h2⟩
      rw [h1, h2]
      simp
    · rw [if_neg hj] at h1 h2
      refine ⟨fun hc => hc.2 h2, ?_, fun _ => h1, fun b => absurd h2 b⟩
      rw [h1, h2]
      simp

/-- Claim C9.  The split output does not depend on the ambient generator state:
`np.random.seed(random_state)` is called first, so two runs with the same
table, ratio and seed — whatever the global generator held before each call
— produce identical train/test tables. -/
theorem split_same_seed_deterministic {m n : ℕ} {σ : Type}
    (choice : σ → List (Fin n) → ℕ → Option (Finset (Fin n) × σ))
    (init : ℕ → σ) (R : Table m n) (frac : ℚ) (seed : ℕ) (g0 g1 : σ) :
    trainTestSplit choice init R frac seed g0 = trainTestSplit choice init R frac seed g1 :=
  rfl

lemma ratedItems_eq_nil {m n : ℕ} (R : Table m n) (u : Fin m)
    (h : ∀ j, ¬ 0 < R u j) : ratedItems R u = [] := by
  unfold ratedItems
  rw [List.filter_eq_nil_iff]
  intro j _
  simpa using h j

lemma nTest_len_zero (frac : ℚ) : nTest 0 frac = 1 := by
  unfold nTest
  rw [Nat.cast_zero, zero_mul]
  decide

lemma nTest_len_one_half : nTest 1 (mkRat 1 2) = 1 := by
  unfold nTest
  rw [Nat.cast_one, one_mul]
  decide

lemma splitUsers_none_of_zero_user {m n : ℕ} {σ : Type}
    {choice : σ → List (Fin n) → ℕ → Option (Finset (Fin n) × σ)}
    (hvalid : ChoiceValid choice) (R : Table m n) (frac : ℚ)
    (u : Fin m) (hu : ∀ j, ¬ 0 < R u j) :
    ∀ (l : List (Fin m)) (st : Table m n × Table m n × σ), u ∈ l →
      splitUsers choice R frac l st = none := by
  intro l
  induction l with
  | nil => intro st h; exact absurd h (List.not_mem_nil u)
  | cons v vs ih =>
    intro st hmem
    rw [splitUsers]
    by_cases hv : v = u
    · subst hv
      have hrt : ratedItems R v = [] := ratedItems_eq_nil R v hu
      have hnone : choice st.2.2 (ratedItems R v) (nTest (ratedItems R v).length frac) = none := by
        rw [hrt]
        refine ((hvalid st.2.2 [] _).1).mpr ?_
        rw [List.length_nil, nTest_len_zero]
        exact Nat.zero_lt_one
      rw [splitStep, hnone]
    · have hvs : u ∈ vs := by
        rcases List.mem_cons.mp hmem with he | he
        · exact absurd he.symm hv
        · exact he
      cases hstep : splitStep choice R frac v st with
      | none => rfl
      | some st' => exact ih st' hvs

/-- Claim C7, amended.  `train_test_split` fails — `np.random.choice` raises on an
empty population with `size = max(1, ...) = 1` — whenever some user has zero
rated items; such users are not "left untouched". -/
theorem split_fails_on_zero_rated_user {m n : ℕ} {σ : Type}
    (choice : σ → List (Fin n) → ℕ → Option (Finset (Fin n) × σ))
    (hvalid : ChoiceValid choice) (init : ℕ → σ) (R : Table m n) (frac : ℚ)
    (seed : ℕ) (g0 : σ) (h : ∃ u, ∀ j, ¬ 0 < R u j) :
    trainTestSplit choice init R frac seed g0 = none := by
  obtain ⟨u, hu⟩ := h
  unfold trainTestSplit
  rw [splitUsers_none_of_zero_user hvalid R frac u hu (List.finRange m) _
    (List.mem_finRange u)]
  rfl

lemma concreteChoice_valid {n : ℕ} : ChoiceValid (concreteChoice (n := n)) := by
  intro g pop k
  constructor
  · unfold concreteChoice
    split
    · rename_i h
      simp only [reduceCtorEq, false_iff]
      omega
    · rename_i h
      simp only [true_iff]
      omega
  · intro hnd s g' hs
    unfold concreteChoice at hs
    split at hs
    · rename_i hk
      cases hs
      constructor
      · intro j hj
        exact List.take_subset k pop (List.mem_toFinset.mp hj)
      · rw [List.toFinset_card_of_nodup (hnd.sublist (List.take_sublist k pop))]
        rw [List.length_take]
        exact min_eq_left hk
    · cases hs

/-- Counterexample to C7 as stated: in `tbl2` user 0 has zero rated items,
and the whole split fails (raises) instead of leaving that user untouched. -/
theorem split_zero_rated_user_counterexample :
    trainTestSplit (concreteChoice (n := 2)) (fun _ => ()) tbl2 (mkRat 1 2) 42 () = none := by
  unfold trainTestSplit
  rw [splitUsers_none_of_zero_user concreteChoice_valid tbl2 (mkRat 1 2) 0 (by decide)
    (List.finRange 2) _ (List.mem_finRange 0)]
  rfl

/-- Witness for the amended C7 at the concrete generator model and table. -/
theorem split_fails_on_zero_rated_user_witness :
    ChoiceValid (concreteChoice (n := 2)) ∧ (∀ j, ¬ 0 < tbl2 0 j) ∧
    trainTestSplit (concreteChoice (n := 2)) (fun _ => ()) tbl2 (mkRat 1 2) 42 () = none :=
  ⟨concreteChoice_valid, by decide,
    split_fails_on_zero_rated_user _ concreteChoice_valid _ tbl2 (mkRat 1 2) 42 ()
      ⟨0, by decide⟩⟩

lemma trainTestSplit_tblOne :
    trainTestSplit (concreteChoice (n := 1)) (fun _ => ()) tblOne
      (mkRat 1 2) 42 () = some (trainW, testW) := by
  have hfin : List.finRange 1 = [(0 : Fin 1)] := by decide
  have hstep : splitStep (concreteChoice (n := 1)) tblOne (mkRat 1 2) 0
      (tblOne, fun _ _ => (0 : ℚ), ()) = some (trainW, testW, ()) := by
    unfold splitStep
    have hrt : ratedItems tblOne 0 = [(0 : Fin 1)] := by decide
    have hch : concreteChoice () [(0 : Fin 1)] 1 = some ({0}, ()) := by decide
    rw [hrt, List.length_singleton, nTest_len_one_half, hch]
    rw [Option.some.injEq, Prod.mk.injEq]
    refine ⟨?_, ?_⟩
    · funext u j
      fin_cases u
      fin_cases j
      decide
    · rw [Prod.mk.injEq]
      refine ⟨?_, rfl⟩
      funext u j
      fin_cases u
      fin_cases j
      decide
  unfold trainTestSplit
  rw [hfin]
  simp only [splitUsers]
  rw [hstep]
  rfl

/-- Witness for C2 at the concrete generator model and table `tblOne`. -/
theorem split_partitions_nonzero_cells_witness :
    (0 < mkRat 1 2) ∧ (mkRat 1 2 < 1) ∧
    ¬(trainW 0 0 ≠ 0 ∧ testW 0 0 ≠ 0) ∧
    (tblOne 0 0 ≠ 0 ↔ trainW 0 0 ≠ 0 ∨ testW 0 0 ≠ 0) ∧
    (trainW 0 0 ≠ 0 → trainW 0 0 = tblOne 0 0) ∧
    (testW 0 0 ≠ 0 → testW 0 0 = tblOne 0 0) := by
  have hc := split_partitions_nonzero_cells (concreteChoice (n := 1)) (fun _ => ())
    tblOne (mkRat 1 2) 42 () (by decide) (by decide) trainW testW trainTestSplit_tblOne 0 0
  exact ⟨by decide, by decide, hc.1, hc.2.1, hc.2.2.1, hc.2.2.2⟩

/-- Claim C6 fails on the code: for the concrete test table `tbl3` (one nonzero
masked cell, one zero cell) and predictions equal to the test table — where
the claim asserts an RMSE of exactly 0 — `compute_rmse` raises instead of
returning a value, because the masked-out cells become NaN and sklearn
rejects NaN input. -/
theorem compute_rmse_raises_on_sparse_test :
    computeRmse tbl3 (fun u j => (tbl3 u j : ℝ)) = none := by
  unfold computeRmse
  rw [if_neg]
  intro h
  exact absurd (h 1 1) (by decide)

end MovieRec
